import Mathlib

/-!
Verification development for the `setup_template.py` scaffolding script.

Texts are modelled as `List Char` (Python `str`), paths as `String`,
the filesystem as a flat association list from a path string to a node
(a regular file with its content, or a directory); `shutil.move` of a
directory becomes a rewrite of the moved prefix on every stored path.
Python `dict`s keep insertion order, so a resolved configuration is an
ordered association list `List (String × String)`.  Interactive input is a
list of pending stdin lines; running out of lines models the `EOFError`
that `input()` raises (an uncaught exception, hence abnormal termination,
modelled as `Option.none`).  The two subprocess calls (`git init`,
`pre-commit install`) have their success or failure injected through an
environment record, since their outcome is external to the script.
-/

namespace SetupTemplate

/-- Model of Python `str.replace(pattern, replacement)` on character lists:
scan left to right, replace each non-overlapping occurrence of `p` by `r`,
never re-scanning the inserted replacement.  The fuel argument makes the
recursion structural; `replaceAll` supplies fuel `s.length`, which is enough
because every step consumes at least one character of `s` when `p ≠ []`
(the only way the script uses it: its patterns are never empty). -/
def replaceAllGo (p r : List Char) : Nat → List Char → List Char
  | 0, s => s
  | _ + 1, [] => []
  | fuel + 1, c :: cs =>
    if p.isPrefixOf (c :: cs) then r ++ replaceAllGo p r fuel ((c :: cs).drop p.length)
    else c :: replaceAllGo p r fuel cs

/-- Python `s.replace(p, r)` for the nonempty patterns used by the script
(`p = []` is unreachable from the script and is modelled as the identity). -/
def replaceAll (p r s : List Char) : List Char :=
  if p = [] then s else replaceAllGo p r s.length s

/-- The placeholder token for a variable: the literal text of the variable
name wrapped in double curly braces (source: `pattern = "{{" + var_name + "}}"`). -/
def token (name : String) : List Char :=
  '{' :: '{' :: (name.data ++ ['}', '}'])

/-- The replacement loop of `replace_in_file` (source lines 150-152): fold the
literal substitutions over the content in the configuration's insertion order. -/
def applySubst (replacements : List (String × String)) (content : List Char) : List Char :=
  replacements.foldl (fun acc nv => replaceAll (token nv.1) nv.2.data acc) content

/-- Result of one `replace_in_file` call: the file content afterwards, the
returned flag, and how many `write_text` calls were made. -/
structure FileOp where
  newContent : List Char
  modified : Bool
  writes : Nat
deriving DecidableEq

/-- Model of `replace_in_file` (source lines 136-160) on the successfully-read
path: substitute every variable, write back exactly when the text changed,
return `True` iff the file was modified. -/
def replace_in_file (replacements : List (String × String)) (content : List Char) : FileOp :=
  let c := applySubst replacements content
  if c ≠ content then ⟨c, true, 1⟩ else ⟨content, false, 0⟩

/-- The variable catalog `TEMPLATE_VARS` (source lines 21-70), in insertion
order, as `(name, default, description)` triples. -/
def TEMPLATE_VARS : List (String × String × String) :=
  [("PROJECT_NAME", "my-python-project",
    "Project name (used for repository and package)"),
   ("PROJECT_DESCRIPTION", "A Python project",
    "Short project description (one line)"),
   ("GITHUB_OWNER", "your-username",
    "GitHub username or organization"),
   ("MIN_PYTHON_VERSION", "3.10",
    "Minimum Python version supported"),
   ("PYTHON_VERSIONS", "3.10, 3.11, 3.12",
    "Python versions for CI matrix (comma-separated)"),
   ("MAX_LINE_LENGTH", "127",
    "Maximum line length for code"),
   ("MAX_COMPLEXITY", "10",
    "Maximum cyclomatic complexity"),
   ("COVERAGE_THRESHOLD", "95",
    "Minimum test coverage percentage"),
   ("SOURCE_DIR", "src",
    "Source code directory name"),
   ("TEST_DIR", "tests",
    "Test directory name"),
   ("MAIN_BRANCH", "main",
    "Main branch name"),
   ("DEV_BRANCH", "develop",
    "Development branch name")]

/-- The fixed target list `FILES_TO_PROCESS` (source lines 73-95). -/
def FILES_TO_PROCESS : List String :=
  [".github/workflows/ci.yml",
   ".github/workflows/claude.yml",
   ".github/workflows/claude-code-review.yml",
   ".github/dependabot.yml",
   ".pre-commit-config.yaml",
   "pyproject.toml",
   ".flake8",
   ".pylintrc",
   "CLAUDE.md",
   "README.md",
   "docs/INDEX.md",
   "docs/CI.md",
   "docs/SETUP.md",
   "docs/ARCHITECTURE.md",
   "docs/planning/TASK_MANAGEMENT.md",
   "config/config.example.yaml",
   "src/__init__.py",
   "src/main.py",
   "tests/__init__.py",
   "tests/conftest.py",
   "tests/test_main.py"]

/-- Characters removed by Python `str.strip()` with no argument. -/
def isPySpace (c : Char) : Bool :=
  c == ' ' || c == '\t' || c == '\n' || c == '\r' ||
    c == Char.ofNat 11 || c == Char.ofNat 12

/-- Python `s.strip()`. -/
def pyStrip (s : String) : String :=
  ⟨((s.data.dropWhile isPySpace).reverse.dropWhile isPySpace).reverse⟩

/-- Model of `get_input` (source lines 101-112): consume one stdin line,
strip it, and fall back to the default when the stripped line is empty.
`none` models the uncaught `EOFError` when stdin is exhausted. -/
def get_input (inputs : List String) (default : String) : Option (String × List String) :=
  match inputs with
  | [] => none
  | line :: rest =>
    let result := pyStrip line
    some (if result ≠ "" then result else default, rest)

/-- The prompting loop of `collect_variables` (source lines 129-131),
generic in the remaining catalog entries. -/
def collectVars : List (String × String × String) → List String →
    Option (List (String × String) × List String)
  | [], inputs => some ([], inputs)
  | v :: vars, inputs =>
    match get_input inputs v.2.1 with
    | none => none
    | some (val, rest) =>
      match collectVars vars rest with
      | none => none
      | some (vs, rest') => some ((v.1, val) :: vs, rest')

/-- Model of `collect_variables` (source lines 115-133): one prompt per
catalog entry in catalog order. -/
def collect_variables (inputs : List String) :
    Option (List (String × String) × List String) :=
  collectVars TEMPLATE_VARS inputs

/-- A filesystem node: a regular file with text content, or a directory. -/
inductive FsObj where
  | file (content : List Char)
  | dir
deriving DecidableEq

/-- First-match association-list lookup, the model of "the entry at this
path exists". -/
def lookupStr {α : Type} : List (String × α) → String → Option α
  | [], _ => none
  | p :: rest, k => if p.1 = k then some p.2 else lookupStr rest k

/-- Overwrite the node stored at path `k` with file content `c`. -/
def fsUpdate (fs : List (String × FsObj)) (k : String) (c : List Char) :
    List (String × FsObj) :=
  fs.map (fun p => if p.1 = k then (p.1, FsObj.file c) else p)

/-- Python `str.startswith`. -/
def startsWithStr (s p : String) : Bool := p.data.isPrefixOf s.data

/-- Path rewrite performed by `shutil.move(root/old, root/new)` on one stored
path: the directory itself is renamed, and every path below it follows. -/
def movePath (old_name new_name k : String) : String :=
  if k = old_name then new_name
  else if (old_name.data ++ ['/']).isPrefixOf k.data then
    ⟨new_name.data ++ ['/'] ++ k.data.drop (old_name.data.length + 1)⟩
  else k

/-- `shutil.move` of a root-level directory on the flat filesystem. -/
def moveFS (fs : List (String × FsObj)) (old_name new_name : String) :
    List (String × FsObj) :=
  fs.map (fun p => (movePath old_name new_name p.1, p.2))

/-- The warning printed by `rename_directory` when the target exists. -/
def warnRename (old_name new_name : String) : String :=
  "  Warning: Cannot rename " ++ old_name ++ " to " ++ new_name ++ ": target exists"

/-- Model of `rename_directory` (source lines 163-188): returns the new path
when a rename happened, the filesystem afterwards, and the printed warnings. -/
def rename_directory (fs : List (String × FsObj)) (old_name new_name : String) :
    Option String × List (String × FsObj) × List String :=
  if old_name = new_name then (none, fs, [])
  else if (lookupStr fs old_name).isSome then
    if (lookupStr fs new_name).isSome then
      (none, fs, [warnRename old_name new_name])
    else (some new_name, moveFS fs old_name new_name, [])
  else (none, fs, [])

/-- Split a character list at a separator (used for `Path.name`). -/
def splitChars (sep : Char) : List Char → List (List Char)
  | [] => [[]]
  | c :: cs =>
    match splitChars sep cs with
    | [] => [[]]
    | seg :: rest => if c = sep then [] :: seg :: rest else (c :: seg) :: rest

/-- `Path.name`: the final path component. -/
def fileNameOf (k : String) : String := ⟨(splitChars '/' k.data).getLastD []⟩

/-- Python `name.startswith(".")`. -/
def startsDot (s : String) : Bool :=
  match s.data with
  | '.' :: _ => true
  | _ => false

/-- The four literal replacement pairs of `update_file_references`
(source lines 205-210), in order. -/
def patterns (old_name new_name : String) : List (List Char × List Char) :=
  [(old_name.data ++ ['/'], new_name.data ++ ['/']),
   ('^' :: old_name.data ++ ['/'], new_name.data ++ ['/']),
   (Char.ofNat 34 :: old_name.data ++ [Char.ofNat 34],
    Char.ofNat 34 :: new_name.data ++ [Char.ofNat 34]),
   (Char.ofNat 39 :: old_name.data ++ [Char.ofNat 39],
    Char.ofNat 39 :: new_name.data ++ [Char.ofNat 39])]

/-- Python's substring test `p in s`. -/
def containsPat (p : List Char) : List Char → Bool
  | [] => p.isEmpty
  | c :: cs => p.isPrefixOf (c :: cs) || containsPat p cs

/-- One step of the per-file pattern loop of `update_file_references`
(source lines 217-219): `if old_pattern in content: replace, modified = True`. -/
def updStep (acc : List Char × Bool) (pr : List Char × List Char) : List Char × Bool :=
  if containsPat pr.1 acc.1 then (replaceAll pr.1 pr.2 acc.1, true) else acc

/-- The per-file body of `update_file_references` (source lines 215-222):
apply each pattern in order, replacing only when the pattern occurs, and
record whether any pattern fired (which is when the file is written back). -/
def update_one (old_name new_name : String) (content : List Char) :
    List Char × Bool :=
  (patterns old_name new_name).foldl updStep (content, false)

/-- The four literal replacements applied unconditionally in order; proved
below to coincide with the guarded loop `update_one` on the content. -/
def applyPatterns (old_name new_name : String) (content : List Char) : List Char :=
  (patterns old_name new_name).foldl (fun acc pr => replaceAll pr.1 pr.2 acc) content

/-- Model of `update_file_references` (source lines 191-224): every regular
file whose own name does not start with a dot gets the pattern pass
(directories, and files in the `rglob` walk with a leading-dot name, are left
alone); the second component lists the paths actually written back. -/
def update_file_references (fs : List (String × FsObj)) (old_name new_name : String) :
    List (String × FsObj) × List String :=
  if old_name = new_name then (fs, [])
  else
    (fs.map (fun p =>
        match p.2 with
        | FsObj.file c =>
          if startsDot (fileNameOf p.1) then p
          else (p.1, FsObj.file (update_one old_name new_name c).1)
        | FsObj.dir => p),
     fs.filterMap (fun p =>
        match p.2 with
        | FsObj.file c =>
          if startsDot (fileNameOf p.1) then none
          else if (update_one old_name new_name c).2 then some p.1 else none
        | FsObj.dir => none))

/-- `values[k]` on the resolved configuration (every catalog key is present
in any configuration produced by `collect_variables`, so the `""` default of
this total model is never reached from `main`). -/
def lookupD (values : List (String × String)) (k : String) : String :=
  (lookupStr values k).getD ""

/-- The fallback path computation of `main` (source lines 294-301): a missing
`src/`-target is retried under the resolved `SOURCE_DIR` name, a missing
`tests/`-target under the resolved `TEST_DIR` name, anything else unchanged. -/
def resolveTarget (values : List (String × String)) (rel : String) : String :=
  if startsWithStr rel "src/" then
    ⟨(lookupD values "SOURCE_DIR").data ++ ['/'] ++ rel.data.drop 4⟩
  else if startsWithStr rel "tests/" then
    ⟨(lookupD values "TEST_DIR").data ++ ['/'] ++ rel.data.drop 6⟩
  else rel

/-- The warning `replace_in_file` prints when the path cannot be read as a
text file (here: the path denotes a directory). -/
def warnProcess (p : String) : String := "  Warning: Could not process " ++ p

/-- One iteration of `main`'s substitution loop (source lines 287-306):
process the target if it exists, otherwise retry under the resolved
directory name, otherwise skip silently; report the filesystem afterwards,
the contribution to `modified_count`, and the printed lines. -/
def processTarget (fs : List (String × FsObj)) (values : List (String × String))
    (rel : String) : List (String × FsObj) × Nat × List String :=
  match lookupStr fs rel with
  | some (FsObj.file c) =>
    let op := replace_in_file values c
    (fsUpdate fs rel op.newContent,
     if op.modified then 1 else 0,
     if op.modified then ["  Updated: " ++ rel] else [])
  | some FsObj.dir => (fs, 0, [warnProcess rel])
  | none =>
    let np := resolveTarget values rel
    match lookupStr fs np with
    | some (FsObj.file c) =>
      let op := replace_in_file values c
      (fsUpdate fs np op.newContent,
       if op.modified then 1 else 0,
       if op.modified then ["  Updated: " ++ np] else [])
    | some FsObj.dir => (fs, 0, [warnProcess np])
    | none => (fs, 0, [])

/-- Outcomes of the two external tools, injected since they are outside the
script (source `subprocess.run` in lines 227-266): `true` means the tool ran
and exited 0, `false` covers both a non-zero exit and the tool being absent. -/
structure ExecEnv where
  gitOk : Bool
  preCommitOk : Bool

/-- Model of `init_git_repo` (source lines 227-245): reports whether the
external `git init` succeeded; failure is caught and turned into `False`. -/
def init_git_repo (env : ExecEnv) : Bool := env.gitOk

/-- Model of `install_pre_commit` (source lines 248-266). -/
def install_pre_commit (env : ExecEnv) : Bool := env.preCommitOk

/-- Python `str.lower()`. -/
def pyLower (s : String) : String := ⟨s.data.map Char.toLower⟩

/-- The affirmative check `answer.lower() in ("yes", "y")`. -/
def isYes (s : String) : Bool := pyLower s == "yes" || pyLower s == "y"

/-- The name of the running script, removable in the final step. -/
def SCRIPT_NAME : String := "setup_template.py"

/-- Result of a completed `main` run. -/
structure MainResult where
  fs : List (String × FsObj)
  log : List String
  exitCode : Int
deriving DecidableEq

/-- Model of `main` (source lines 269-358): collect variables, substitute all
targets, conditionally rename the two directories and fix references, ask the
three yes/no questions, optionally delete the script, and return 0.  `none`
models abnormal termination (stdin exhausted, an uncaught exception). -/
def main (inputs : List String) (fs0 : List (String × FsObj)) (env : ExecEnv) :
    Option MainResult :=
  match collect_variables inputs with
  | none => none
  | some (values, rest1) =>
    let step := FILES_TO_PROCESS.foldl
      (fun acc rel =>
        let r := processTarget acc.1 values rel
        (r.1, acc.2.1 + r.2.1, acc.2.2 ++ r.2.2))
      (fs0, 0, [])
    let srcStep :=
      if lookupD values "SOURCE_DIR" ≠ "src" then
        let rr := rename_directory step.1 "src" (lookupD values "SOURCE_DIR")
        match rr.1 with
        | some _ =>
          ((update_file_references rr.2.1 "src" (lookupD values "SOURCE_DIR")).1,
           rr.2.2 ++ ["  Renamed: src -> " ++ lookupD values "SOURCE_DIR"])
        | none => (rr.2.1, rr.2.2)
      else (step.1, [])
    let testStep :=
      if lookupD values "TEST_DIR" ≠ "tests" then
        let rr := rename_directory srcStep.1 "tests" (lookupD values "TEST_DIR")
        match rr.1 with
        | some _ =>
          ((update_file_references rr.2.1 "tests" (lookupD values "TEST_DIR")).1,
           rr.2.2 ++ ["  Renamed: tests -> " ++ lookupD values "TEST_DIR"])
        | none => (rr.2.1, rr.2.2)
      else (srcStep.1, [])
    match get_input rest1 "yes" with
    | none => none
    | some (a1, rest2) =>
      let log2 :=
        if isYes a1 then
          if init_git_repo env then ["  Initialized git repository"]
          else ["  Warning: Could not initialize git repository"]
        else []
      match get_input rest2 "yes" with
      | none => none
      | some (a2, rest3) =>
        let log3 :=
          if isYes a2 then
            if install_pre_commit env then ["  Installed pre-commit hooks"]
            else ["  Warning: Could not install pre-commit hooks"]
          else []
        match get_input rest3 "yes" with
        | none => none
        | some (a3, _) =>
          let fsFinal :=
            if isYes a3 then testStep.1.filter (fun p => p.1 ≠ SCRIPT_NAME)
            else testStep.1
          some ⟨fsFinal, step.2.2 ++ srcStep.2 ++ testStep.2 ++ log2 ++ log3, 0⟩

/-- A character list free of both curly-brace characters. -/
def braceFree (l : List Char) : Prop := ∀ c ∈ l, c ≠ '{' ∧ c ≠ '}'

instance (l : List Char) : Decidable (braceFree l) := by
  unfold braceFree; infer_instance

/-- A piece of template text: a single literal character, or a whole
placeholder token for the named variable. -/
inductive Seg where
  | chunk (c : Char)
  | tok (n : String)
deriving DecidableEq

/-- The text a segment stands for. -/
def Seg.render : Seg → List Char
  | .chunk c => [c]
  | .tok n => token n

/-- The text a segment list stands for. -/
def renderSegs : List Seg → List Char
  | [] => []
  | s :: rest => s.render ++ renderSegs rest

/-- Substituting one variable on the segment decomposition: its tokens become
the replacement value, everything else stays. -/
def substOne (n : String) (v : List Char) : List Seg → List Seg
  | [] => []
  | .chunk c :: rest => .chunk c :: substOne n v rest
  | .tok m :: rest =>
    if m = n then v.map Seg.chunk ++ substOne n v rest
    else .tok m :: substOne n v rest

/-- The whole substitution pass on the segment decomposition, in
configuration order. -/
def substAll (cfg : List (String × String)) (segs : List Seg) : List Seg :=
  cfg.foldl (fun acc nv => substOne nv.1 nv.2.data acc) segs

/-- Well-formed segment: a chunk character is not a brace, a token name is
brace-free (as every catalog name is). -/
def SegWF : Seg → Prop
  | .chunk c => c ≠ '{' ∧ c ≠ '}'
  | .tok n => braceFree n.data

instance : (s : Seg) → Decidable (SegWF s)
  | .chunk _ => by unfold SegWF; infer_instance
  | .tok _ => by unfold SegWF; infer_instance

/-- No token of the given variable occurs among the segments. -/
def noTok (n : String) (segs : List Seg) : Prop :=
  ∀ m, Seg.tok m ∈ segs → m ≠ n

/-- The catalog defaults as a resolved configuration. -/
def cfgDefaults : List (String × String) :=
  TEMPLATE_VARS.map (fun t => (t.1, t.2.1))

/-- Configuration for the C1 counterexample: all defaults, except that the
user answered the `TEST_DIR` prompt with the literal text `{{SOURCE_DIR}}`. -/
def cfgC1 : List (String × String) :=
  TEMPLATE_VARS.map (fun t =>
    (t.1, if t.1 = "TEST_DIR" then (⟨token "SOURCE_DIR"⟩ : String) else t.2.1))

/-- File content for the C1 counterexample: exactly one `TEST_DIR` token. -/
def contentC1 : List Char := token "TEST_DIR"

/-- Configuration for the C2 counterexample: all defaults, except that the
user answered the `TEST_DIR` prompt with the literal text `{{PROJECT_NAME}}`. -/
def cfgC2 : List (String × String) :=
  TEMPLATE_VARS.map (fun t =>
    (t.1, if t.1 = "TEST_DIR" then (⟨token "PROJECT_NAME"⟩ : String) else t.2.1))

/-- File content for the C2 counterexample: exactly one `TEST_DIR` token. -/
def contentC2 : List Char := token "TEST_DIR"

/-! ## Lemmas -/

theorem replaceAllGo_fuel (p r : List Char) (hp : p ≠ []) :
    ∀ n s f₁ f₂, s.length = n → s.length ≤ f₁ → s.length ≤ f₂ →
      replaceAllGo p r f₁ s = replaceAllGo p r f₂ s := by
  intro n
  induction n using Nat.strong_induction_on with
  | _ n ih =>
    intro s f₁ f₂ hn h₁ h₂
    cases s with
    | nil => cases f₁ <;> cases f₂ <;> simp [replaceAllGo]
    | cons c cs =>
      cases f₁ with
      | zero => simp at h₁
      | succ f₁ =>
        cases f₂ with
        | zero => simp at h₂
        | succ f₂ =>
          have hplen : 0 < p.length := List.length_pos.mpr hp
          simp only [List.length_cons] at hn h₁ h₂
          by_cases hpre : p.isPrefixOf (c :: cs) = true
          · simp only [replaceAllGo]
            rw [if_pos hpre, if_pos hpre]
            congr 1
            have hd : ((c :: cs).drop p.length).length = cs.length + 1 - p.length := by
              simp [List.length_drop]
            exact ih (cs.length + 1 - p.length) (by omega) _ f₁ f₂ hd
              (by omega) (by omega)
          · simp only [replaceAllGo]
            rw [if_neg hpre, if_neg hpre]
            congr 1
            exact ih cs.length (by omega) _ f₁ f₂ rfl (by omega) (by omega)

theorem replaceAll_nil (p r : List Char) : replaceAll p r [] = [] := by
  by_cases hp : p = [] <;> simp [replaceAll, hp, replaceAllGo]

theorem replaceAll_cons_match (p r : List Char) (c : Char) (cs : List Char)
    (hp : p ≠ []) (hpre : p.isPrefixOf (c :: cs) = true) :
    replaceAll p r (c :: cs) = r ++ replaceAll p r ((c :: cs).drop p.length) := by
  have hplen : 0 < p.length := List.length_pos.mpr hp
  simp only [replaceAll, hp, if_false, List.length_cons]
  simp only [replaceAllGo]
  rw [if_pos hpre]
  congr 1
  exact replaceAllGo_fuel p r hp _ _ _ _ rfl
    (by simp only [List.length_drop, List.length_cons]; omega)
    (le_refl _)

theorem replaceAll_cons_miss (p r : List Char) (c : Char) (cs : List Char)
    (hp : p ≠ []) (hpre : ¬ p.isPrefixOf (c :: cs) = true) :
    replaceAll p r (c :: cs) = c :: replaceAll p r cs := by
  simp only [replaceAll, hp, if_false, List.length_cons]
  simp only [replaceAllGo]
  rw [if_neg hpre]

theorem isPrefixOf_iff (p s : List Char) : p.isPrefixOf s = true ↔ p <+: s := by
  induction p generalizing s with
  | nil => simp [List.isPrefixOf]
  | cons a as ih =>
    cases s with
    | nil => simp [List.isPrefixOf]
    | cons b bs =>
      simp [List.isPrefixOf, ih, List.cons_prefix_cons, And.comm]

theorem pref_inf {p s : List Char} (h : p <+: s) : p <:+: s := by
  obtain ⟨t, ht⟩ := h
  exact ⟨[], t, by simpa using ht⟩

theorem inf_cons {p : List Char} {c : Char} {cs : List Char} (h : p <:+: (c :: cs)) :
    p <+: (c :: cs) ∨ p <:+: cs := by
  obtain ⟨u, v, huv⟩ := h
  cases u with
  | nil => exact Or.inl ⟨v, by simpa using huv⟩
  | cons x xs =>
    right
    simp only [List.cons_append, List.cons.injEq] at huv
    exact ⟨xs, v, by simp [huv.2]⟩

theorem inf_of_tail {p cs : List Char} (c : Char) (h : p <:+: cs) : p <:+: (c :: cs) := by
  obtain ⟨u, v, huv⟩ := h
  exact ⟨c :: u, v, by simp [huv]⟩

theorem token_ne_nil (name : String) : token name ≠ [] := by
  simp [token]

/-- A text with no occurrence of the pattern is left unchanged by the scan. -/
theorem replaceAll_of_not_inf (p r : List Char) (hp : p ≠ []) :
    ∀ s, ¬ p <:+: s → replaceAll p r s = s := by
  intro s
  induction s with
  | nil => intro _; exact replaceAll_nil p r
  | cons c cs ih =>
    intro h
    have hpre : ¬ p.isPrefixOf (c :: cs) = true := fun hb =>
      h (pref_inf ((isPrefixOf_iff p (c :: cs)).mp hb))
    rw [replaceAll_cons_miss p r c cs hp hpre, ih (fun hh => h (inf_of_tail c hh))]

/-- A text with no occurrence of any configured token is a fixed point of
the whole substitution pass. -/
theorem applySubst_of_no_tokens (cfg : List (String × String)) :
    ∀ content, (∀ nv ∈ cfg, ¬ (token nv.1 <:+: content)) →
      applySubst cfg content = content := by
  induction cfg with
  | nil => intro content _; simp [applySubst]
  | cons nv rest ih =>
    intro content h
    show List.foldl _ _ (nv :: rest) = content
    rw [List.foldl_cons,
      replaceAll_of_not_inf _ _ (token_ne_nil nv.1) _ (h nv (by simp))]
    exact ih content (fun x hx => h x (by simp [hx]))

theorem containsPat_iff (p s : List Char) : containsPat p s = true ↔ p <:+: s := by
  induction s with
  | nil =>
    simp only [containsPat]
    constructor
    · intro h
      have hp : p = [] := by
        cases p with
        | nil => rfl
        | cons a as => simp [List.isEmpty] at h
      subst hp; exact ⟨[], [], rfl⟩
    · rintro ⟨u, v, huv⟩
      simp only [List.append_eq_nil] at huv
      simp [huv.1.2, List.isEmpty]
  | cons c cs ih =>
    simp only [containsPat, Bool.or_eq_true, isPrefixOf_iff, ih]
    constructor
    · rintro (h | h)
      exacts [pref_inf h, inf_of_tail c h]
    · exact inf_cons

/-- The scan replaces an occurrence sitting at the very start. -/
theorem replaceAll_append_head (p r t : List Char) (hp : p ≠ []) :
    replaceAll p r (p ++ t) = r ++ replaceAll p r t := by
  cases hpe : p with
  | nil => exact absurd hpe hp
  | cons a as =>
    have hpre : (a :: as).isPrefixOf ((a :: as) ++ t) = true :=
      (isPrefixOf_iff _ _).mpr ⟨t, rfl⟩
    rw [List.cons_append,
      replaceAll_cons_match (a :: as) r a (as ++ t) (by simp)
        (by rwa [← List.cons_append])]
    congr 1
    rw [← List.cons_append, List.drop_left]

theorem replaceAll_chunk_skip (n : String) (v : List Char) (c : Char) (t : List Char)
    (hc : c ≠ '{') :
    replaceAll (token n) v (c :: t) = c :: replaceAll (token n) v t := by
  apply replaceAll_cons_miss _ _ _ _ (token_ne_nil n)
  intro hb
  obtain ⟨u, hu⟩ := (isPrefixOf_iff _ _).mp hb
  rw [show token n ++ u = '{' :: (('{' :: (n.data ++ ['}', '}'])) ++ u) from by
    simp [token]] at hu
  injection hu with h1 _
  exact hc h1.symm

/-- The scan walks through a block none of whose nonempty tails starts an
occurrence. -/
theorem replaceAll_skip_block (p r : List Char) (hp : p ≠ []) :
    ∀ w t, (∀ w₁ w₂, w = w₁ ++ w₂ → w₂ ≠ [] → ¬ p <+: (w₂ ++ t)) →
      replaceAll p r (w ++ t) = w ++ replaceAll p r t := by
  intro w
  induction w with
  | nil => intro t _; simp
  | cons c w' ih =>
    intro t h
    have hpre : ¬ p.isPrefixOf (c :: (w' ++ t)) = true := by
      intro hb
      exact h [] (c :: w') rfl (by simp)
        (by rw [List.cons_append]; exact (isPrefixOf_iff _ _).mp hb)
    rw [List.cons_append, replaceAll_cons_miss _ _ _ _ hp hpre,
      ih t (fun w₁ w₂ hw hne => h (c :: w₁) w₂ (by simp [hw]) hne),
      List.cons_append]

theorem strData_inj {s₁ s₂ : String} (h : s₁.data = s₂.data) : s₁ = s₂ := by
  cases s₁; cases s₂; exact congrArg String.mk h

/-- Two different closing-brace-free names cannot have one token text start
inside the other: the name-and-closing part of one token is never a prefix
of the other's. -/
theorem namePrefixClash : ∀ (n m u w : List Char), (∀ c ∈ n, c ≠ '}') →
    (∀ c ∈ m, c ≠ '}') → n ≠ m → ¬ ((n ++ '}' :: u) <+: (m ++ '}' :: w)) := by
  intro n
  induction n with
  | nil =>
    intro m u w _ hm hnm hpre
    cases m with
    | nil => exact hnm rfl
    | cons b m' =>
      simp only [List.nil_append, List.cons_append] at hpre
      obtain ⟨t, ht⟩ := hpre
      injection ht with h1 _
      exact hm b (by simp) h1.symm
  | cons a n' ih =>
    intro m u w hn hm hnm hpre
    cases m with
    | nil =>
      simp only [List.cons_append, List.nil_append] at hpre
      obtain ⟨t, ht⟩ := hpre
      rw [List.cons_append] at ht
      injection ht with h1 _
      exact hn a (by simp) h1
    | cons b m' =>
      simp only [List.cons_append, List.cons_prefix_cons] at hpre
      obtain ⟨hab, htail⟩ := hpre
      exact ih m' u w (fun c hc => hn c (by simp [hc]))
        (fun c hc => hm c (by simp [hc]))
        (fun he => hnm (by rw [hab, he])) htail

/-- No nonempty tail of the token of `m` (followed by anything) starts with
the token of a different brace-free name `n`. -/
theorem token_no_pref_inside (n m : String) (hn : braceFree n.data)
    (hm : braceFree m.data) (hmn : m ≠ n) :
    ∀ w₁ w₂ t, token m = w₁ ++ w₂ → w₂ ≠ [] → ¬ token n <+: (w₂ ++ t) := by
  intro w₁ w₂ t hw hne hpre
  have hmem : ∀ c ∈ m.data ++ ['}', '}'], c ≠ '{' := by
    intro c hc
    rcases List.mem_append.mp hc with h | h
    · exact (hm c h).1
    · rcases List.mem_cons.mp h with h' | h'
      · simp [h']
      · rcases List.mem_cons.mp h' with h'' | h''
        · simp [h'']
        · simp at h''
  cases w₁ with
  | nil =>
    simp only [List.nil_append] at hw
    subst hw
    rw [show token m ++ t = '{' :: '{' :: (m.data ++ (['}', '}'] ++ t)) from by
        simp [token],
      show token n = '{' :: '{' :: (n.data ++ ['}', '}']) from rfl,
      List.cons_prefix_cons, List.cons_prefix_cons] at hpre
    have h3 := hpre.2.2
    exact namePrefixClash n.data m.data ['}'] ('}' :: t)
      (fun c hc => (hn c hc).2) (fun c hc => (hm c hc).2)
      (fun he => hmn (strData_inj he).symm) h3
  | cons c₁ w₁' =>
    rw [show token m = '{' :: ('{' :: (m.data ++ ['}', '}'])) from rfl,
      List.cons_append] at hw
    injection hw with hc₁ hw'
    cases w₁' with
    | nil =>
      simp only [List.nil_append] at hw'
      subst hw'
      rw [show ('{' :: (m.data ++ ['}', '}'])) ++ t =
          '{' :: ((m.data ++ ['}', '}']) ++ t) from by simp,
        show token n = '{' :: '{' :: (n.data ++ ['}', '}']) from rfl,
        List.cons_prefix_cons] at hpre
      have h2 := hpre.2
      cases hmd : m.data with
      | nil =>
        rw [hmd] at h2
        simp only [List.nil_append, List.cons_append] at h2
        obtain ⟨t', ht'⟩ := h2
        injection ht' with h1 _
        simp at h1
      | cons b md =>
        rw [hmd] at h2
        simp only [List.cons_append] at h2
        obtain ⟨t', ht'⟩ := h2
        injection ht' with h1 _
        exact (hm b (by rw [hmd]; simp)).1 h1.symm
    | cons c₂ w₁'' =>
      rw [List.cons_append] at hw'
      injection hw' with hc₂ hw''
      cases w₂ with
      | nil => exact hne rfl
      | cons d w₂' =>
        have hd : d ∈ m.data ++ ['}', '}'] := by
          rw [hw'']
          exact List.mem_append.mpr (Or.inr (by simp))
        rw [show (d :: w₂') ++ t = d :: (w₂' ++ t) from rfl,
          show token n = '{' :: ('{' :: (n.data ++ ['}', '}'])) from rfl,
          List.cons_prefix_cons] at hpre
        exact hmem d hd hpre.1.symm

theorem replaceAll_token_other (n m : String) (v t : List Char)
    (hn : braceFree n.data) (hm : braceFree m.data) (hmn : m ≠ n) :
    replaceAll (token n) v (token m ++ t) = token m ++ replaceAll (token n) v t :=
  replaceAll_skip_block (token n) v (token_ne_nil n) (token m) t
    (fun w₁ w₂ hw hne => token_no_pref_inside n m hn hm hmn w₁ w₂ t hw hne)

/-- Occurrence-freeness extends over a block none of whose tails starts an
occurrence. -/
theorem not_inf_append (p : List Char) (w t : List Char)
    (ht : ¬ p <:+: t)
    (hsplit : ∀ w₁ w₂, w = w₁ ++ w₂ → w₂ ≠ [] → ¬ p <+: (w₂ ++ t)) :
    ¬ p <:+: (w ++ t) := by
  induction w with
  | nil => simpa using ht
  | cons c w' ih =>
    intro h
    rw [List.cons_append] at h
    rcases inf_cons h with h' | h'
    · exact hsplit [] (c :: w') rfl (by simp)
        (by rw [List.cons_append]; exact h')
    · exact ih (fun w₁ w₂ hw hne => hsplit (c :: w₁) w₂ (by simp [hw]) hne) h'

theorem renderSegs_append : ∀ a b : List Seg,
    renderSegs (a ++ b) = renderSegs a ++ renderSegs b := by
  intro a b
  induction a with
  | nil => simp [renderSegs]
  | cons s rest ih => simp [renderSegs, ih]

theorem renderSegs_chunks (v : List Char) : renderSegs (v.map Seg.chunk) = v := by
  induction v with
  | nil => simp [renderSegs]
  | cons c cs ih => simp [renderSegs, Seg.render, ih]

/-- One replacement pass on a rendered well-formed segment list is exactly
the segment-level substitution of that variable. -/
theorem replaceAll_render_substOne (n : String) (v : List Char)
    (hn : braceFree n.data) :
    ∀ segs, (∀ s ∈ segs, SegWF s) →
      replaceAll (token n) v (renderSegs segs) = renderSegs (substOne n v segs) := by
  intro segs
  induction segs with
  | nil => intro _; simp [renderSegs, substOne, replaceAll_nil]
  | cons s rest ih =>
    intro hwf
    have hrest : ∀ x ∈ rest, SegWF x := fun x hx => hwf x (by simp [hx])
    cases s with
    | chunk c =>
      have hc : c ≠ '{' := (hwf (Seg.chunk c) (by simp)).1
      show replaceAll (token n) v (c :: renderSegs rest) =
        renderSegs (Seg.chunk c :: substOne n v rest)
      rw [replaceAll_chunk_skip n v c _ hc, ih hrest]
      rfl
    | tok m =>
      by_cases hmn : m = n
      · subst hmn
        show replaceAll (token m) v (token m ++ renderSegs rest) =
          renderSegs (substOne m v (Seg.tok m :: rest))
        rw [replaceAll_append_head _ _ _ (token_ne_nil m), ih hrest]
        simp [substOne, renderSegs_append, renderSegs_chunks]
      · have hm : braceFree m.data := hwf (Seg.tok m) (by simp)
        show replaceAll (token n) v (token m ++ renderSegs rest) =
          renderSegs (substOne n v (Seg.tok m :: rest))
        rw [replaceAll_token_other n m v _ hn hm hmn, ih hrest]
        simp [substOne, hmn, renderSegs, Seg.render]

theorem substOne_WF (n : String) (v : List Char) (hv : braceFree v) :
    ∀ segs, (∀ s ∈ segs, SegWF s) → ∀ s ∈ substOne n v segs, SegWF s := by
  intro segs
  induction segs with
  | nil => intro _ s hs; simp [substOne] at hs
  | cons sg rest ih =>
    intro hwf s hs
    have hrest : ∀ x ∈ rest, SegWF x := fun x hx => hwf x (by simp [hx])
    cases sg with
    | chunk c =>
      simp only [substOne, List.mem_cons] at hs
      rcases hs with h | h
      · exact h ▸ hwf (Seg.chunk c) (by simp)
      · exact ih hrest s h
    | tok m =>
      simp only [substOne] at hs
      by_cases hmn : m = n
      · rw [if_pos hmn] at hs
        rcases List.mem_append.mp hs with h | h
        · obtain ⟨c, hc, rfl⟩ := List.mem_map.mp h
          exact ⟨(hv c hc).1, (hv c hc).2⟩
        · exact ih hrest s h
      · rw [if_neg hmn] at hs
        rcases List.mem_cons.mp hs with h | h
        · exact h ▸ hwf (Seg.tok m) (by simp)
        · exact ih hrest s h

/-- The whole substitution pass on a rendered well-formed segment list is the
segment-level substitution of the whole configuration (hence: the text
between tokens is carried over unchanged, and each token of a configured
variable becomes that variable's value). -/
theorem applySubst_render (cfg : List (String × String)) :
    ∀ segs, (∀ s ∈ segs, SegWF s) →
      (∀ nv ∈ cfg, braceFree nv.1.data ∧ braceFree nv.2.data) →
      applySubst cfg (renderSegs segs) = renderSegs (substAll cfg segs) ∧
      (∀ s ∈ substAll cfg segs, SegWF s) := by
  induction cfg with
  | nil => intro segs hwf _; exact ⟨rfl, hwf⟩
  | cons nv rest ih =>
    intro segs hwf hcfg
    have hn := (hcfg nv (by simp)).1
    have hv := (hcfg nv (by simp)).2
    have h1 : replaceAll (token nv.1) nv.2.data (renderSegs segs) =
        renderSegs (substOne nv.1 nv.2.data segs) :=
      replaceAll_render_substOne nv.1 nv.2.data hn segs hwf
    have hwf1 := substOne_WF nv.1 nv.2.data hv segs hwf
    have hrest : ∀ x ∈ rest, braceFree x.1.data ∧ braceFree x.2.data :=
      fun x hx => hcfg x (by simp [hx])
    have hrec := ih (substOne nv.1 nv.2.data segs) hwf1 hrest
    refine ⟨?_, hrec.2⟩
    show List.foldl _ _ (nv :: rest) = _
    rw [List.foldl_cons, h1]
    exact hrec.1

theorem noTok_substOne_self (n : String) (v : List Char) :
    ∀ segs, noTok n (substOne n v segs) := by
  intro segs
  induction segs with
  | nil => intro m hm; simp [substOne] at hm
  | cons sg rest ih =>
    intro m hm
    cases sg with
    | chunk c =>
      simp only [substOne, List.mem_cons] at hm
      rcases hm with h | h
      · exact absurd h (by simp)
      · exact ih m h
    | tok m' =>
      simp only [substOne] at hm
      by_cases hg : m' = n
      · rw [if_pos hg] at hm
        rcases List.mem_append.mp hm with h | h
        · obtain ⟨c, -, hc⟩ := List.mem_map.mp h
          exact absurd hc (by simp)
        · exact ih m h
      · rw [if_neg hg] at hm
        rcases List.mem_cons.mp hm with h | h
        · injection h with h'
          exact h' ▸ hg
        · exact ih m h

theorem noTok_substOne_keep (n' n : String) (v : List Char) :
    ∀ segs, noTok n' segs → noTok n' (substOne n v segs) := by
  intro segs
  induction segs with
  | nil => intro _ m hm; simp [substOne] at hm
  | cons sg rest ih =>
    intro hno m hm
    have hrest : noTok n' rest := fun x hx => hno x (by simp [hx])
    cases sg with
    | chunk c =>
      simp only [substOne, List.mem_cons] at hm
      rcases hm with h | h
      · exact absurd h (by simp)
      · exact ih hrest m h
    | tok m' =>
      simp only [substOne] at hm
      by_cases hg : m' = n
      · rw [if_pos hg] at hm
        rcases List.mem_append.mp hm with h | h
        · obtain ⟨c, -, hc⟩ := List.mem_map.mp h
          exact absurd hc (by simp)
        · exact ih hrest m h
      · rw [if_neg hg] at hm
        rcases List.mem_cons.mp hm with h | h
        · injection h with h'
          subst h'
          exact hno m (by simp)
        · exact ih hrest m h

theorem noTok_substAll_keep (cfg : List (String × String)) (n' : String) :
    ∀ segs, noTok n' segs → noTok n' (substAll cfg segs) := by
  induction cfg with
  | nil => intro segs h; exact h
  | cons nv rest ih =>
    intro segs h
    show noTok n' (List.foldl _ _ (nv :: rest))
    rw [List.foldl_cons]
    exact ih _ (noTok_substOne_keep n' nv.1 nv.2.data segs h)

/-- After the whole pass, no token of any configured variable is left at the
segment level. -/
theorem noTok_substAll (cfg : List (String × String)) :
    ∀ segs nv, nv ∈ cfg → noTok nv.1 (substAll cfg segs) := by
  induction cfg with
  | nil => intro _ nv h; simp at h
  | cons hd rest ih =>
    intro segs nv hnv
    rcases List.mem_cons.mp hnv with h | h
    · subst h
      show noTok nv.1 (List.foldl _ _ (nv :: rest))
      rw [List.foldl_cons]
      exact noTok_substAll_keep rest nv.1 _ (noTok_substOne_self nv.1 nv.2.data segs)
    · show noTok nv.1 (List.foldl _ _ (hd :: rest))
      rw [List.foldl_cons]
      exact ih (substOne hd.1 hd.2.data segs) nv h

/-- A rendered well-formed segment list without tokens of `n` contains no
occurrence of the token text of `n`. -/
theorem token_not_inf_render (n : String) (hn : braceFree n.data) :
    ∀ segs, (∀ s ∈ segs, SegWF s) → noTok n segs →
      ¬ token n <:+: renderSegs segs := by
  intro segs
  induction segs with
  | nil =>
    intro _ _ h
    obtain ⟨u, v, huv⟩ := h
    simp only [renderSegs, List.append_eq_nil] at huv
    exact token_ne_nil n huv.1.2
  | cons sg rest ih =>
    intro hwf hnt
    have hrest := ih (fun x hx => hwf x (by simp [hx])) (fun m hm => hnt m (by simp [hm]))
    cases sg with
    | chunk c =>
      intro h
      have h' : token n <:+: (c :: renderSegs rest) := h
      rcases inf_cons h' with h'' | h''
      · obtain ⟨t, ht⟩ := h''
        have hc := (hwf (Seg.chunk c) (by simp)).1
        rw [show token n ++ t = '{' :: (('{' :: (n.data ++ ['}', '}'])) ++ t) from by
          simp [token]] at ht
        injection ht with h1 _
        exact hc h1.symm
      · exact hrest h''
    | tok m =>
      have hm : braceFree m.data := hwf (Seg.tok m) (by simp)
      have hmn : m ≠ n := hnt m (by simp)
      exact not_inf_append (token n) (token m) (renderSegs rest) hrest
        (fun w₁ w₂ hw hne => token_no_pref_inside n m hn hm hmn w₁ w₂ _ hw hne)

theorem replace_in_file_newContent (cfg : List (String × String)) (content : List Char) :
    (replace_in_file cfg content).newContent = applySubst cfg content := by
  show (if applySubst cfg content ≠ content then
      (⟨applySubst cfg content, true, 1⟩ : FileOp)
    else ⟨content, false, 0⟩).newContent = applySubst cfg content
  by_cases h : applySubst cfg content ≠ content
  · rw [if_pos h]
  · rw [if_neg h]
    exact (not_ne_iff.mp h).symm

/-! ## Claim theorems -/

/-- C1, counterexample to the claim as stated: take the resolved
configuration that answers every prompt with the default except `TEST_DIR`,
which the user answers with the literal text of the `SOURCE_DIR` token, and a
file consisting of exactly one `TEST_DIR` token.  The file contains a
recognized token, yet after `replace_in_file` the resulting text still
contains the token of the configuration variable `SOURCE_DIR` (the whole
output is exactly that token), because `SOURCE_DIR` was processed before
`TEST_DIR` and the scan never restarts. -/
theorem C1_counterexample :
    token "TEST_DIR" <:+: contentC1 ∧
    ("TEST_DIR", (⟨token "SOURCE_DIR"⟩ : String)) ∈ cfgC1 ∧
    ("SOURCE_DIR", "src") ∈ cfgC1 ∧
    (replace_in_file cfgC1 contentC1).newContent = token "SOURCE_DIR" ∧
    token "SOURCE_DIR" <:+: (replace_in_file cfgC1 contentC1).newContent := by
  exact ⟨⟨[], [], by decide⟩, by decide, by decide, by decide, [], [], by decide⟩

/-- C1 (amended): when the file text decomposes into brace-free literal
characters and whole tokens of brace-free variables, and every resolved value
is brace-free (so that no replacement can textually produce a new token),
`replace_in_file` produces exactly the segment-wise substitution — every
token of a configured variable is replaced by its value and all content
outside the tokens is carried over unchanged — and no token of any
configuration variable remains in the resulting text. -/
theorem C1_substitution_correct (cfg : List (String × String)) (segs : List Seg)
    (hwf : ∀ s ∈ segs, SegWF s)
    (hcfg : ∀ nv ∈ cfg, braceFree nv.1.data ∧ braceFree nv.2.data)
    (_hhas : ∃ nv ∈ cfg, token nv.1 <:+: renderSegs segs) :
    (replace_in_file cfg (renderSegs segs)).newContent =
      renderSegs (substAll cfg segs) ∧
    ∀ nv ∈ cfg, ¬ token nv.1 <:+:
      (replace_in_file cfg (renderSegs segs)).newContent := by
  obtain ⟨heq, hwf'⟩ := applySubst_render cfg segs hwf hcfg
  have hmain : (replace_in_file cfg (renderSegs segs)).newContent =
      renderSegs (substAll cfg segs) := by
    rw [replace_in_file_newContent, heq]
  refine ⟨hmain, ?_⟩
  intro nv hnv
  rw [hmain]
  exact token_not_inf_render nv.1 (hcfg nv hnv).1 (substAll cfg segs) hwf'
    (noTok_substAll cfg segs nv hnv)

/-- Witness for C1 at a concrete input: one variable `NAME ↦ val`, file text
`{{NAME}}x` (rendered from a token segment and a chunk). -/
theorem C1_substitution_correct_witness :
    (replace_in_file [("NAME", "val")]
        (renderSegs [Seg.tok "NAME", Seg.chunk 'x'])).newContent =
      renderSegs (substAll [("NAME", "val")] [Seg.tok "NAME", Seg.chunk 'x']) ∧
    ¬ token "NAME" <:+: (replace_in_file [("NAME", "val")]
        (renderSegs [Seg.tok "NAME", Seg.chunk 'x'])).newContent := by
  have h := C1_substitution_correct [("NAME", "val")]
    [Seg.tok "NAME", Seg.chunk 'x'] (by decide) (by decide)
    ⟨("NAME", "val"), by decide, [], ['x'], by decide⟩
  exact ⟨h.1, h.2 ("NAME", "val") (by decide)⟩

/-- C2, counterexample to the claim as stated: with every default except
`TEST_DIR`, answered with the literal text of the `PROJECT_NAME` token, the
first pass turns the file `{{TEST_DIR}}` into `{{PROJECT_NAME}}`, and the
second pass with the same configuration modifies the file again (to the
project name default), reporting `True` rather than the claimed
"unmodified". -/
theorem C2_counterexample :
    (replace_in_file cfgC2 contentC2).newContent = token "PROJECT_NAME" ∧
    (replace_in_file cfgC2 (replace_in_file cfgC2 contentC2).newContent).modified
      = true ∧
    (replace_in_file cfgC2 (replace_in_file cfgC2 contentC2).newContent).newContent
      = "my-python-project".data := by
  refine ⟨by decide, by decide, by decide⟩

/-- C2 (amended): under the no-token-creation conditions (file text made of
brace-free chunks and whole tokens of brace-free variables, brace-free
resolved values), running `replace_in_file` a second time with the same
configuration on the already-substituted content is a no-op: it performs no
write and reports "unmodified" (returns `False`). -/
theorem C2_idempotent (cfg : List (String × String)) (segs : List Seg)
    (hwf : ∀ s ∈ segs, SegWF s)
    (hcfg : ∀ nv ∈ cfg, braceFree nv.1.data ∧ braceFree nv.2.data) :
    replace_in_file cfg (replace_in_file cfg (renderSegs segs)).newContent =
      ⟨(replace_in_file cfg (renderSegs segs)).newContent, false, 0⟩ := by
  obtain ⟨heq, hwf'⟩ := applySubst_render cfg segs hwf hcfg
  have h1 : (replace_in_file cfg (renderSegs segs)).newContent =
      renderSegs (substAll cfg segs) := by
    rw [replace_in_file_newContent, heq]
  rw [h1]
  have hfix : applySubst cfg (renderSegs (substAll cfg segs)) =
      renderSegs (substAll cfg segs) := by
    apply applySubst_of_no_tokens
    intro nv hnv
    exact token_not_inf_render nv.1 (hcfg nv hnv).1 (substAll cfg segs) hwf'
      (noTok_substAll cfg segs nv hnv)
  show (if applySubst cfg (renderSegs (substAll cfg segs)) ≠
        renderSegs (substAll cfg segs) then _ else _) = _
  rw [if_neg (not_ne_iff.mpr hfix)]

/-- Witness for C2 at a concrete input. -/
theorem C2_idempotent_witness :
    replace_in_file [("NAME", "val")]
        (replace_in_file [("NAME", "val")]
          (renderSegs [Seg.tok "NAME", Seg.chunk 'y'])).newContent =
      ⟨(replace_in_file [("NAME", "val")]
          (renderSegs [Seg.tok "NAME", Seg.chunk 'y'])).newContent, false, 0⟩ :=
  C2_idempotent [("NAME", "val")] [Seg.tok "NAME", Seg.chunk 'y']
    (by decide) (by decide)

/-- C3: `replace_in_file` performs at most one write, and only when the
substituted text differs from the original; a file containing no token of
any configuration variable is reported "unmodified" (`False`), not written,
and its content stays byte-identical. -/
theorem C3_write_frame (cfg : List (String × String)) (content : List Char) :
    (replace_in_file cfg content).writes ≤ 1 ∧
    ((replace_in_file cfg content).writes = 1 → applySubst cfg content ≠ content) ∧
    ((∀ nv ∈ cfg, ¬ token nv.1 <:+: content) →
      replace_in_file cfg content = ⟨content, false, 0⟩) := by
  by_cases h : applySubst cfg content ≠ content
  · have he : replace_in_file cfg content = ⟨applySubst cfg content, true, 1⟩ := by
      show (if applySubst cfg content ≠ content then _ else _) = _
      rw [if_pos h]
    refine ⟨by simp [he], fun _ => h, ?_⟩
    intro hno
    exact absurd (applySubst_of_no_tokens cfg content hno) h
  · have he : replace_in_file cfg content = ⟨content, false, 0⟩ := by
      show (if applySubst cfg content ≠ content then _ else _) = _
      rw [if_neg h]
    exact ⟨by simp [he], by simp [he], fun _ => he⟩

/-- Witness for C3 at a concrete input: the default configuration on a
token-free file. -/
theorem C3_write_frame_witness :
    replace_in_file cfgDefaults "hello world".data = ⟨"hello world".data, false, 0⟩ :=
  (C3_write_frame cfgDefaults "hello world".data).2.2 (by decide)

theorem movePath_self (old_name new_name : String) :
    movePath old_name new_name old_name = new_name := by
  simp [movePath]

theorem movePath_child (old_name new_name : String) (q : List Char) :
    movePath old_name new_name ⟨old_name.data ++ '/' :: q⟩ =
      ⟨new_name.data ++ '/' :: q⟩ := by
  have hne : (⟨old_name.data ++ '/' :: q⟩ : String) ≠ old_name := by
    intro h
    have hlen := congrArg (fun s => s.data.length) h
    simp at hlen
  have hpre : (old_name.data ++ ['/']).isPrefixOf
      (⟨old_name.data ++ '/' :: q⟩ : String).data = true :=
    (isPrefixOf_iff _ _).mpr ⟨q, by simp⟩
  unfold movePath
  rw [if_neg hne, if_pos hpre]
  apply congrArg String.mk
  have hd : ((⟨old_name.data ++ '/' :: q⟩ : String).data).drop
      (old_name.data.length + 1) = q := by
    show (old_name.data ++ '/' :: q).drop (old_name.data.length + 1) = q
    rw [show old_name.data ++ '/' :: q = (old_name.data ++ ['/']) ++ q from by simp,
      show old_name.data.length + 1 = (old_name.data ++ ['/']).length from by simp,
      List.drop_left]
  rw [hd]
  simp

theorem movePath_other (old_name new_name k : String) (hk : k ≠ old_name)
    (hpre : ¬ (old_name.data ++ ['/']) <+: k.data) :
    movePath old_name new_name k = k := by
  have hb : ¬ (old_name.data ++ ['/']).isPrefixOf k.data = true := fun hb =>
    hpre ((isPrefixOf_iff _ _).mp hb)
  unfold movePath
  rw [if_neg hk, if_neg hb]

theorem movePath_ne_old (old_name new_name k : String) (hne : old_name ≠ new_name)
    (hslash : '/' ∉ old_name.data) : movePath old_name new_name k ≠ old_name := by
  unfold movePath
  by_cases h1 : k = old_name
  · rw [if_pos h1]
    exact fun h => hne h.symm
  · rw [if_neg h1]
    by_cases h2 : (old_name.data ++ ['/']).isPrefixOf k.data = true
    · rw [if_pos h2]
      intro h
      apply hslash
      have hdata : new_name.data ++ ['/'] ++ k.data.drop (old_name.data.length + 1) =
          old_name.data := congrArg String.data h
      rw [← hdata]
      simp
    · rw [if_neg h2]
      exact h1

theorem lookupStr_none_of_all {α : Type} (fs : List (String × α)) (k : String)
    (h : ∀ p ∈ fs, p.1 ≠ k) : lookupStr fs k = none := by
  induction fs with
  | nil => rfl
  | cons p rest ih =>
    show (if p.1 = k then some p.2 else lookupStr rest k) = none
    rw [if_neg (h p (by simp))]
    exact ih (fun q hq => h q (by simp [hq]))

theorem lookup_moveFS_new (fs : List (String × FsObj)) (old_name new_name : String)
    (e : FsObj) (_hne : old_name ≠ new_name) (hold : lookupStr fs old_name = some e)
    (hnew : lookupStr fs new_name = none) :
    lookupStr (moveFS fs old_name new_name) new_name = some e := by
  induction fs with
  | nil => exact absurd hold (by simp [lookupStr])
  | cons p rest ih =>
    by_cases h1 : p.1 = old_name
    · have he : p.2 = e := by
        have hthis : lookupStr (p :: rest) old_name = some p.2 := by
          show (if p.1 = old_name then some p.2 else lookupStr rest old_name) = some p.2
          rw [if_pos h1]
        rw [hthis] at hold
        exact Option.some.inj hold
      show (if movePath old_name new_name p.1 = new_name then some p.2
        else lookupStr (moveFS rest old_name new_name) new_name) = some e
      rw [h1, movePath_self, if_pos rfl, he]
    · have hnew1 : p.1 ≠ new_name := by
        intro h
        have hthis : lookupStr (p :: rest) new_name = some p.2 := by
          show (if p.1 = new_name then some p.2 else lookupStr rest new_name) = some p.2
          rw [if_pos h]
        rw [hthis] at hnew
        exact Option.noConfusion hnew
      have hold' : lookupStr rest old_name = some e := by
        have hthis : lookupStr (p :: rest) old_name = lookupStr rest old_name := by
          show (if p.1 = old_name then some p.2 else lookupStr rest old_name) = _
          rw [if_neg h1]
        rwa [hthis] at hold
      have hnew' : lookupStr rest new_name = none := by
        have hthis : lookupStr (p :: rest) new_name = lookupStr rest new_name := by
          show (if p.1 = new_name then some p.2 else lookupStr rest new_name) = _
          rw [if_neg hnew1]
        rwa [hthis] at hnew
      have hk : movePath old_name new_name p.1 ≠ new_name := by
        unfold movePath
        rw [if_neg h1]
        by_cases h2 : (old_name.data ++ ['/']).isPrefixOf p.1.data = true
        · rw [if_pos h2]
          intro hcontra
          have hdata : new_name.data ++ ['/'] ++
              p.1.data.drop (old_name.data.length + 1) = new_name.data :=
            congrArg String.data hcontra
          have hlen := congrArg List.length hdata
          simp [List.length_append] at hlen
        · rw [if_neg h2]
          exact hnew1
      show (if movePath old_name new_name p.1 = new_name then some p.2
        else lookupStr (moveFS rest old_name new_name) new_name) = some e
      rw [if_neg hk]
      exact ih hold' hnew'

theorem lookup_moveFS_old (fs : List (String × FsObj)) (old_name new_name : String)
    (hne : old_name ≠ new_name) (hslash : '/' ∉ old_name.data) :
    lookupStr (moveFS fs old_name new_name) old_name = none := by
  apply lookupStr_none_of_all
  intro p hp
  obtain ⟨q, -, hmap⟩ := List.mem_map.mp hp
  rw [← hmap]
  exact movePath_ne_old old_name new_name q.1 hne hslash

theorem lookup_moveFS_untouched (fs : List (String × FsObj))
    (old_name new_name k : String) (hk1 : k ≠ old_name)
    (hk2 : ¬ (old_name.data ++ ['/']) <+: k.data) (hk3 : k ≠ new_name)
    (hk4 : ¬ (new_name.data ++ ['/']) <+: k.data) :
    lookupStr (moveFS fs old_name new_name) k = lookupStr fs k := by
  induction fs with
  | nil => rfl
  | cons p rest ih =>
    show (if movePath old_name new_name p.1 = k then some p.2
        else lookupStr (moveFS rest old_name new_name) k) =
      (if p.1 = k then some p.2 else lookupStr rest k)
    by_cases h1 : p.1 = k
    · rw [if_pos h1, h1, movePath_other old_name new_name k hk1 hk2, if_pos rfl]
    · rw [if_neg h1]
      by_cases h2 : movePath old_name new_name p.1 = k
      · exfalso
        unfold movePath at h2
        by_cases ha : p.1 = old_name
        · rw [if_pos ha] at h2
          exact hk3 h2.symm
        · rw [if_neg ha] at h2
          by_cases hb : (old_name.data ++ ['/']).isPrefixOf p.1.data = true
          · rw [if_pos hb] at h2
            apply hk4
            rw [← h2]
            exact ⟨p.1.data.drop (old_name.data.length + 1), by simp⟩
          · rw [if_neg hb] at h2
            exact h1 h2
      · rw [if_neg h2]
        exact ih

theorem mem_moveFS_child (fs : List (String × FsObj)) (old_name new_name : String)
    (q : List Char) (c : FsObj)
    (h : ((⟨old_name.data ++ '/' :: q⟩ : String), c) ∈ fs) :
    ((⟨new_name.data ++ '/' :: q⟩ : String), c) ∈ moveFS fs old_name new_name := by
  apply List.mem_map.mpr
  refine ⟨(⟨old_name.data ++ '/' :: q⟩, c), h, ?_⟩
  show (movePath old_name new_name ⟨old_name.data ++ '/' :: q⟩, c) = _
  rw [movePath_child]

/-- C4: `rename_directory` returns no new path and leaves the filesystem
untouched when the names coincide, when the old directory is absent, or when
an entry with the new name already exists; otherwise it returns the new path
and moves the old directory together with everything below it (every stored
path under `old/` reappears under `new/`, the old entry disappears, and
unrelated paths keep their lookup results).  Directory names contain no path
separator, which the `'/' ∉` hypothesis records. -/
theorem C4_rename_directory (fs : List (String × FsObj)) (old_name new_name : String)
    (hso : '/' ∉ old_name.data) :
    (old_name = new_name → rename_directory fs old_name new_name = (none, fs, [])) ∧
    (old_name ≠ new_name → lookupStr fs old_name = none →
      rename_directory fs old_name new_name = (none, fs, [])) ∧
    (old_name ≠ new_name → (lookupStr fs old_name).isSome = true →
      (lookupStr fs new_name).isSome = true →
      (rename_directory fs old_name new_name).1 = none ∧
      (rename_directory fs old_name new_name).2.1 = fs) ∧
    (∀ e, old_name ≠ new_name → lookupStr fs old_name = some e →
      lookupStr fs new_name = none →
      rename_directory fs old_name new_name =
        (some new_name, moveFS fs old_name new_name, []) ∧
      lookupStr (moveFS fs old_name new_name) new_name = some e ∧
      lookupStr (moveFS fs old_name new_name) old_name = none ∧
      (∀ q c, ((⟨old_name.data ++ '/' :: q⟩ : String), c) ∈ fs →
        ((⟨new_name.data ++ '/' :: q⟩ : String), c) ∈
          moveFS fs old_name new_name) ∧
      (∀ k, k ≠ old_name → ¬ (old_name.data ++ ['/']) <+: k.data →
        k ≠ new_name → ¬ (new_name.data ++ ['/']) <+: k.data →
        lookupStr (moveFS fs old_name new_name) k = lookupStr fs k)) := by
  refine ⟨?_, ?_, ?_, ?_⟩
  · intro h
    simp [rename_directory, h]
  · intro hne h
    simp [rename_directory, hne, h]
  · intro hne h1 h2
    simp [rename_directory, hne, h1, h2]
  · intro e hne h1 h2
    refine ⟨by simp [rename_directory, hne, h1, h2], ?_, ?_, ?_, ?_⟩
    · exact lookup_moveFS_new fs old_name new_name e hne h1 h2
    · exact lookup_moveFS_old fs old_name new_name hne hso
    · exact fun q c h => mem_moveFS_child fs old_name new_name q c h
    · exact fun k hk1 hk2 hk3 hk4 =>
        lookup_moveFS_untouched fs old_name new_name k hk1 hk2 hk3 hk4

/-- Witness for C4 at a concrete input: renaming `src` to `app` moves the
directory entry and the file under it. -/
theorem C4_rename_directory_witness :
    rename_directory [("src", FsObj.dir), ("src/main.py", FsObj.file ['a'])]
        "src" "app" =
      (some "app",
       moveFS [("src", FsObj.dir), ("src/main.py", FsObj.file ['a'])] "src" "app",
       []) ∧
    lookupStr (moveFS [("src", FsObj.dir), ("src/main.py", FsObj.file ['a'])]
        "src" "app") "app" = some FsObj.dir ∧
    moveFS [("src", FsObj.dir), ("src/main.py", FsObj.file ['a'])] "src" "app" =
      [("app", FsObj.dir), ("app/main.py", FsObj.file ['a'])] := by
  have h := (C4_rename_directory
    [("src", FsObj.dir), ("src/main.py", FsObj.file ['a'])] "src" "app"
    (by decide)).2.2.2 FsObj.dir (by decide) (by decide) (by decide)
  exact ⟨h.1, h.2.1, by decide⟩

/-- C5, counterexample to the claim as stated: a requested rename with a
missing source directory (`tests` absent, `tests ≠ t2`) makes no change and
returns no path, but logs no warning at all — the printed-warning list is
empty, where the claim requires a warning to be logged. -/
theorem C5_counterexample :
    ("tests" : String) ≠ "t2" ∧
    lookupStr [("src", FsObj.dir)] "tests" = none ∧
    rename_directory [("src", FsObj.dir)] "tests" "t2" =
      (none, [("src", FsObj.dir)], []) :=
  ⟨by decide, by decide, by decide⟩

/-- C5 (amended): when a requested rename (`old ≠ new`) does not happen, no
filesystem state changes and the call returns normally; a warning is logged
in the target-already-exists case, while a missing source directory is
skipped silently with no warning. -/
theorem C5_rename_warning (fs : List (String × FsObj)) (old_name new_name : String)
    (hne : old_name ≠ new_name) :
    (lookupStr fs old_name = none →
      rename_directory fs old_name new_name = (none, fs, [])) ∧
    (∀ e e', lookupStr fs old_name = some e → lookupStr fs new_name = some e' →
      rename_directory fs old_name new_name =
        (none, fs, [warnRename old_name new_name])) := by
  constructor
  · intro h
    simp [rename_directory, hne, h]
  · intro e e' h1 h2
    simp [rename_directory, hne, h1, h2]

/-- Witness for C5 at a concrete input: target `app` already exists. -/
theorem C5_rename_warning_witness :
    rename_directory [("src", FsObj.dir), ("app", FsObj.dir)] "src" "app" =
      (none, [("src", FsObj.dir), ("app", FsObj.dir)], [warnRename "src" "app"]) :=
  (C5_rename_warning [("src", FsObj.dir), ("app", FsObj.dir)] "src" "app"
    (by decide)).2 FsObj.dir FsObj.dir (by decide) (by decide)

theorem containsPat_false (p s : List Char) (h : ¬ p <:+: s) :
    containsPat p s = false := by
  cases hb : containsPat p s
  · rfl
  · exact absurd ((containsPat_iff p s).mp hb) h

theorem replaceAll_of_containsPat_false (p r s : List Char)
    (h : containsPat p s = false) : replaceAll p r s = s := by
  by_cases hp : p = []
  · simp [replaceAll, hp]
  · refine replaceAll_of_not_inf p r hp s ?_
    intro hinf
    exact absurd ((containsPat_iff p s).mpr hinf) (by simp [h])

theorem updFold_true (ps : List (List Char × List Char)) :
    ∀ acc : List Char × Bool, acc.2 = true → (ps.foldl updStep acc).2 = true := by
  induction ps with
  | nil => intro acc h; exact h
  | cons p rest ih =>
    intro acc h
    rw [List.foldl_cons]
    unfold updStep
    by_cases hc : containsPat p.1 acc.1 = true
    · rw [if_pos hc]
      exact ih _ rfl
    · rw [if_neg hc]
      exact ih _ h

theorem updFold_false (ps : List (List Char × List Char)) :
    ∀ acc : List Char × Bool, (ps.foldl updStep acc).2 = false →
      ps.foldl updStep acc = acc := by
  induction ps with
  | nil => intro acc _; rfl
  | cons p rest ih =>
    intro acc h
    rw [List.foldl_cons] at h ⊢
    by_cases hc : containsPat p.1 acc.1 = true
    · exfalso
      have htrue := updFold_true rest (updStep acc p) (by unfold updStep; rw [if_pos hc])
      rw [h] at htrue
      exact Bool.noConfusion htrue
    · have hstep : updStep acc p = acc := by
        unfold updStep; rw [if_neg hc]
      rw [hstep] at h ⊢
      exact ih acc h

/-- The guarded loop never writes back without the reported modification
flag; when the flag stays `False` the content is byte-identical. -/
theorem update_one_unmodified (old_name new_name : String) (c : List Char)
    (h : (update_one old_name new_name c).2 = false) :
    (update_one old_name new_name c).1 = c := by
  have := updFold_false (patterns old_name new_name) (c, false) h
  rw [show update_one old_name new_name c =
    (patterns old_name new_name).foldl updStep (c, false) from rfl, this]

theorem updFold_fst (ps : List (List Char × List Char)) :
    ∀ (c : List Char) (b : Bool),
      (ps.foldl updStep (c, b)).1 =
        ps.foldl (fun acc pr => replaceAll pr.1 pr.2 acc) c := by
  induction ps with
  | nil => intro c b; rfl
  | cons p rest ih =>
    intro c b
    rw [List.foldl_cons, List.foldl_cons]
    unfold updStep
    by_cases hc : containsPat p.1 c = true
    · rw [if_pos hc]
      exact ih _ _
    · have hf : containsPat p.1 c = false := by
        cases hcb : containsPat p.1 c
        · rfl
        · exact absurd hcb hc
      rw [if_neg hc, replaceAll_of_containsPat_false p.1 p.2 c hf]
      exact ih c b

/-- The guarded per-file loop computes exactly the unconditional sequence of
the four literal replacements. -/
theorem update_one_fst (old_name new_name : String) (c : List Char) :
    (update_one old_name new_name c).1 = applyPatterns old_name new_name c :=
  updFold_fst (patterns old_name new_name) c false

theorem updFold_no_match (ps : List (List Char × List Char)) :
    ∀ acc : List Char × Bool, (∀ pr ∈ ps, containsPat pr.1 acc.1 = false) →
      ps.foldl updStep acc = acc := by
  induction ps with
  | nil => intro acc _; rfl
  | cons p rest ih =>
    intro acc h
    rw [List.foldl_cons]
    have hstep : updStep acc p = acc := by
      unfold updStep
      rw [if_neg (by simp [h p (by simp)])]
    rw [hstep]
    exact ih acc (fun pr hpr => h pr (by simp [hpr]))

/-- A file containing none of the four patterns is left alone: no
replacement, no write-back flag. -/
theorem update_one_no_patterns (old_name new_name : String) (c : List Char)
    (h : ∀ pr ∈ patterns old_name new_name, ¬ pr.1 <:+: c) :
    update_one old_name new_name c = (c, false) :=
  updFold_no_match (patterns old_name new_name) (c, false)
    (fun pr hpr => containsPat_false pr.1 c (h pr hpr))

/-- C6: after a rename (`old ≠ new`), `update_file_references` leaves every
directory entry and every file whose own name starts with a dot untouched;
it rewrites every other file to the result of the four literal pattern
replacements applied in order; it writes back exactly the non-hidden files
whose guarded pattern loop fired, and a file containing none of the four
patterns is neither changed nor written. -/
theorem C6_update_refs (fs : List (String × FsObj)) (old_name new_name : String)
    (hne : old_name ≠ new_name) :
    (∀ k obj, (k, obj) ∈ fs →
      (startsDot (fileNameOf k) = true ∨ obj = FsObj.dir) →
      (k, obj) ∈ (update_file_references fs old_name new_name).1) ∧
    (∀ k c, (k, FsObj.file c) ∈ fs → startsDot (fileNameOf k) = false →
      (k, FsObj.file (applyPatterns old_name new_name c)) ∈
        (update_file_references fs old_name new_name).1) ∧
    (∀ k, k ∈ (update_file_references fs old_name new_name).2 →
      ∃ c, (k, FsObj.file c) ∈ fs ∧ startsDot (fileNameOf k) = false ∧
        (update_one old_name new_name c).2 = true) ∧
    (∀ k c, (k, FsObj.file c) ∈ fs →
      (∀ pr ∈ patterns old_name new_name, ¬ pr.1 <:+: c) →
      update_one old_name new_name c = (c, false) ∧
      (k, FsObj.file c) ∈ (update_file_references fs old_name new_name).1) := by
  have hufr : (update_file_references fs old_name new_name).1 =
      fs.map (fun p =>
        match p.2 with
        | FsObj.file c =>
          if startsDot (fileNameOf p.1) then p
          else (p.1, FsObj.file (update_one old_name new_name c).1)
        | FsObj.dir => p) := by
    simp [update_file_references, hne]
  have hufw : (update_file_references fs old_name new_name).2 =
      fs.filterMap (fun p =>
        match p.2 with
        | FsObj.file c =>
          if startsDot (fileNameOf p.1) then none
          else if (update_one old_name new_name c).2 then some p.1 else none
        | FsObj.dir => none) := by
    simp [update_file_references, hne]
  refine ⟨?_, ?_, ?_, ?_⟩
  · intro k obj hmem hcase
    rw [hufr]
    rcases hcase with hdot | hdir
    · cases obj with
      | file c => exact List.mem_map.mpr ⟨(k, FsObj.file c), hmem, by simp [hdot]⟩
      | dir => exact List.mem_map.mpr ⟨(k, FsObj.dir), hmem, by simp⟩
    · subst hdir
      exact List.mem_map.mpr ⟨(k, FsObj.dir), hmem, by simp⟩
  · intro k c hmem hdot
    rw [hufr]
    exact List.mem_map.mpr ⟨(k, FsObj.file c), hmem,
      by simp [hdot, update_one_fst]⟩
  · intro k hk
    rw [hufw] at hk
    obtain ⟨⟨k', obj⟩, hp, hsome⟩ := List.mem_filterMap.mp hk
    cases obj with
    | dir => simp at hsome
    | file c =>
      by_cases hdot : startsDot (fileNameOf k') = true
      · simp [hdot] at hsome
      · by_cases hflag : (update_one old_name new_name c).2 = true
        · have hkk : k' = k := by simpa [hdot, hflag] using hsome
          subst hkk
          exact ⟨c, hp, by simpa using hdot, hflag⟩
        · simp [hdot, hflag] at hsome
  · intro k c hmem hno
    have h1 : update_one old_name new_name c = (c, false) :=
      update_one_no_patterns old_name new_name c hno
    refine ⟨h1, ?_⟩
    rw [hufr]
    by_cases hdot : startsDot (fileNameOf k) = true
    · exact List.mem_map.mpr ⟨(k, FsObj.file c), hmem, by simp [hdot]⟩
    · exact List.mem_map.mpr ⟨(k, FsObj.file c), hmem, by simp [hdot, h1]⟩

/-- Witness for C6 at a concrete input: a visible file whose content mentions
`src/` gets the four replacements applied. -/
theorem C6_update_refs_witness :
    ("README.md", FsObj.file (applyPatterns "src" "app" "see src/main.py".data)) ∈
      (update_file_references
        [("README.md", FsObj.file "see src/main.py".data)] "src" "app").1 ∧
    applyPatterns "src" "app" "see src/main.py".data = "see app/main.py".data := by
  refine ⟨(C6_update_refs [("README.md", FsObj.file "see src/main.py".data)]
    "src" "app" (by decide)).2.1 "README.md" "see src/main.py".data
    (by decide) (by decide), by decide⟩

/-- C7: if the user gives an empty line at every prompt, `collect_variables`
returns exactly the catalog defaults — one entry per catalog variable, in
catalog order, each mapped to its default value. -/
theorem C7_defaults_on_empty_input :
    collect_variables (List.replicate 12 "") = some (cfgDefaults, []) ∧
    cfgDefaults.map Prod.fst = TEMPLATE_VARS.map (fun t => t.1) ∧
    (cfgDefaults.map Prod.fst).Nodup := by
  refine ⟨by decide, by decide, by decide⟩

/-- C8: when a listed target does not exist under its original path, `main`'s
loop retries exactly once, under the resolved `SOURCE_DIR` name for `src/`
paths and the resolved `TEST_DIR` name for `tests/` paths (other paths are
retried at the unchanged path); if the file exists under neither name it is
skipped silently — the filesystem is untouched, the modified-file count gets
no contribution, and nothing is printed; if the retried path is a file it is
processed there. -/
theorem C8_path_fallback (fs : List (String × FsObj))
    (values : List (String × String)) (rel : String)
    (h1 : lookupStr fs rel = none) :
    (startsWithStr rel "src/" = true →
      (resolveTarget values rel).data =
        (lookupD values "SOURCE_DIR").data ++ '/' :: rel.data.drop 4) ∧
    (startsWithStr rel "src/" = false → startsWithStr rel "tests/" = true →
      (resolveTarget values rel).data =
        (lookupD values "TEST_DIR").data ++ '/' :: rel.data.drop 6) ∧
    (startsWithStr rel "src/" = false → startsWithStr rel "tests/" = false →
      resolveTarget values rel = rel) ∧
    (lookupStr fs (resolveTarget values rel) = none →
      processTarget fs values rel = (fs, 0, [])) ∧
    (∀ c, lookupStr fs (resolveTarget values rel) = some (FsObj.file c) →
      processTarget fs values rel =
        (fsUpdate fs (resolveTarget values rel)
          (replace_in_file values c).newContent,
         if (replace_in_file values c).modified then 1 else 0,
         if (replace_in_file values c).modified then
           ["  Updated: " ++ resolveTarget values rel] else [])) := by
  refine ⟨?_, ?_, ?_, ?_, ?_⟩
  · intro hs
    simp [resolveTarget, hs]
  · intro hs1 hs2
    simp [resolveTarget, hs1, hs2]
  · intro hs1 hs2
    simp [resolveTarget, hs1, hs2]
  · intro hr
    simp [processTarget, h1, hr]
  · intro c hc
    simp [processTarget, h1, hc]

/-- Witness for C8 at a concrete input: `src/main.py` listed but absent under
both names on an empty filesystem is skipped without counting. -/
theorem C8_path_fallback_witness :
    processTarget [] cfgDefaults "src/main.py" = ([], 0, []) :=
  (C8_path_fallback [] cfgDefaults "src/main.py" (by decide)).2.2.2.1 (by decide)

/-- C10: the hidden-file exclusion looks only at the file's own name: a file
whose final path component does not start with a dot is rewritten by
`update_file_references` no matter what directories (hidden or not) lie on
its path. -/
theorem C10_hidden_check_own_name (fs : List (String × FsObj))
    (old_name new_name k : String) (c : List Char) (hne : old_name ≠ new_name)
    (hmem : (k, FsObj.file c) ∈ fs)
    (hname : startsDot (fileNameOf k) = false) :
    (k, FsObj.file (update_one old_name new_name c).1) ∈
      (update_file_references fs old_name new_name).1 := by
  have hufr : (update_file_references fs old_name new_name).1 =
      fs.map (fun p =>
        match p.2 with
        | FsObj.file c =>
          if startsDot (fileNameOf p.1) then p
          else (p.1, FsObj.file (update_one old_name new_name c).1)
        | FsObj.dir => p) := by
    simp [update_file_references, hne]
  rw [hufr]
  exact List.mem_map.mpr ⟨(k, FsObj.file c), hmem, by simp [hname]⟩

/-- Witness for C10 at a concrete input: `ci.yml` inside the hidden
directory `.github` is still rewritten. -/
theorem C10_hidden_check_own_name_witness :
    fileNameOf ".github/workflows/ci.yml" = "ci.yml" ∧
    startsDot ".github" = true ∧
    (".github/workflows/ci.yml",
      FsObj.file (update_one "src" "app" "use src/ here".data).1) ∈
      (update_file_references
        [(".github/workflows/ci.yml", FsObj.file "use src/ here".data)]
        "src" "app").1 := by
  refine ⟨by decide, by decide,
    C10_hidden_check_own_name
      [(".github/workflows/ci.yml", FsObj.file "use src/ here".data)]
      "src" "app" ".github/workflows/ci.yml" "use src/ here".data
      (by decide) (by decide) (by decide)⟩

/-- C9: every completed run of `main` — whatever the inputs, the starting
filesystem, and the success or failure of the external `git init` and
`pre-commit install` calls — returns exit code 0; the only abnormal outcome
(`none`) is an uncaught exception such as exhausted stdin. -/
theorem C9_exit_zero (inputs : List String) (fs0 : List (String × FsObj))
    (env : ExecEnv) : ∀ r, main inputs fs0 env = some r → r.exitCode = 0 := by
  intro r h
  unfold main at h
  repeat' split at h
  all_goals first
    | exact Option.noConfusion h
    | rw [← Option.some.inj h]

/-- Witness for C9 at a concrete input: both external tools fail, every
prompt is answered with the empty line, the filesystem is empty — the run
completes with exit code 0 (and two warnings). -/
theorem C9_exit_zero_witness :
    (⟨[], ["  Warning: Could not initialize git repository",
           "  Warning: Could not install pre-commit hooks"], 0⟩
      : MainResult).exitCode = 0 :=
  C9_exit_zero (List.replicate 15 "") [] ⟨false, false⟩ _ (by decide)

end SetupTemplate
